import Mathlib

/-!
Shallow embedding of the download-planning and repair core of the
`datavault-api-python-client` repository, together with theorems settling
the specification claims about it.

Modelling conventions:

* Python `int` is modelled as `ℤ` (with `//` as `Int.fdiv` and `%` as
  `Int.fmod`, which share Python's floor-division semantics).
* Python `float` arithmetic in the planner only ever combines small
  decimal literals (`5.0`, `0.8`, `1024**2`) with integers, and for every
  value reachable in the planner the IEEE double result coincides with
  exact rational arithmetic, so `float` is modelled as `ℚ`; Python's
  `round` (banker's rounding, round-half-to-even) is `pyRound` below.
* Python `str` is modelled as `String`, with the string operations the
  source uses (`split`, `join`, `startswith`, `rfind`, `int(...)`)
  re-implemented structurally over `String.data` so that concrete
  instances evaluate inside the kernel.
* `pathlib.Path` values are modelled as a parent-directory component list
  plus a final name (`PyPath`); `Path.stem` and `Path.suffixes` are
  transcribed from their CPython implementations.
* The filesystem seen by the post-download reconciliation step is
  modelled as an association list of paths to byte contents (`PyFS`);
  `Path.glob("*.txt")` becomes a filter over the directory listing.
* Code that can raise an exception (`IndexError`, `ValueError`,
  `TypeError`) is modelled with `Option`, `none` marking the raise.
* A Python `NamedTuple` constructor call is checked by comparing the
  keyword names at the call site with the declared field names
  (`namedtupleCallOk`): the call raises `TypeError` unless the two agree,
  since none of the named tuples in `data_structures.py` declare
  defaults.
-/

/-- Python's built-in `round` on an exact (rational) value: round half to
even, as CPython does for `float` arguments. -/
def pyRound (q : ℚ) : ℤ :=
  if q - ⌊q⌋ < 1/2 then ⌊q⌋
  else if 1/2 < q - ⌊q⌋ then ⌊q⌋ + 1
  else if Even ⌊q⌋ then ⌊q⌋ else ⌊q⌋ + 1

/-- Splits a character list at every occurrence of `sep`, keeping empty
chunks; this is Python's `str.split(sep)` for a one-character separator
(`"".split(sep) == [""]`, `"_".split("_") == ["", ""]`). -/
def splitCh (sep : Char) : List Char → List (List Char)
  | [] => [[]]
  | c :: cs =>
    match splitCh sep cs with
    | [] => [[]]
    | t :: ts => if c = sep then [] :: t :: ts else (c :: t) :: ts

/-- Python `s.split(sep)` for a one-character separator, on `String`. -/
def pySplit (s : String) (sep : Char) : List String :=
  (splitCh sep s.data).map (fun cs => String.mk cs)

/-- Python `sep.join(xs)`. -/
def pyJoin (sep : String) : List String → String
  | [] => ""
  | [x] => x
  | x :: y :: rest => x ++ sep ++ pyJoin sep (y :: rest)

/-- Python `s.startswith(t)`. -/
def strStartsWith (s t : String) : Bool :=
  t.data.isPrefixOf s.data

/-- Python `s.endswith(t)`. -/
def strEndsWith (s t : String) : Bool :=
  t.data.isSuffixOf s.data

/-- Index of the last occurrence of `c`, if any; `s.rfind(c)` returns this
index, or `-1` when `none`. -/
def rfindIdx (c : Char) : List Char → Option ℕ
  | [] => none
  | x :: xs =>
    match rfindIdx c xs with
    | some j => some (j + 1)
    | none => if x = c then some 0 else none

/-- CPython `PurePath.stem`: `i = name.rfind('.'); return name[:i] if
0 < i < len(name) - 1 else name`. -/
def pyStem (cs : List Char) : List Char :=
  match rfindIdx '.' cs with
  | none => cs
  | some i => if 0 < i ∧ i + 1 < cs.length then cs.take i else cs

/-- CPython `PurePath.suffixes`: empty when the name ends with a dot,
otherwise `['.' + s for s in name.lstrip('.').split('.')[1:]]`. -/
def pySuffixes (cs : List Char) : List (List Char) :=
  if cs.getLast? = some '.' then []
  else ((splitCh '.' (cs.dropWhile (fun x => x = '.'))).tail).map (fun t => '.' :: t)

/-- Python `int(token)` for the unsigned decimal tokens that appear in the
partition file names; any other shape raises `ValueError`, modelled as
`none`. -/
def pyInt (s : String) : Option ℤ :=
  if s.data ≠ [] ∧ s.data.all (fun c => c.isDigit) then
    some (s.data.foldl (fun a c => a * 10 + ((c.toNat : ℤ) - ('0'.toNat : ℤ))) 0)
  else none

/-- A `pathlib.Path`: the components of the parent directory, plus the
final name. `p.parent` in the source corresponds to the `parent` field. -/
structure PyPath where
  parent : List String
  name : String
deriving DecidableEq

/-- Field names of `data_structures.DiscoveredFileInfo`, in declaration
order (no field has a default value). -/
def discoveredFileInfoFields : List String :=
  ["file_name", "download_url", "source_id", "reference_date", "size", "md5sum"]

/-- Field names of `data_structures.DownloadDetails`, in declaration order
(no field has a default value). -/
def downloadDetailsFields : List String :=
  ["file_name", "download_url", "file_path", "source_id", "reference_date",
   "size", "md5sum", "is_partitioned"]

/-- Keyword names used by the `DiscoveredFileInfo(...)` call inside
`crawler.create_discovered_file_object`. -/
def createDiscoveredFileObjectKeywords : List String :=
  ["file_name", "download_url", "source", "size", "md5sum"]

/-- Keyword names used by the `DownloadDetails(...)` call inside
`pre_download_processing.process_raw_download_info`. -/
def processRawDownloadInfoKeywords : List String :=
  ["file_name", "download_url", "file_path", "size", "md5sum", "is_partitioned"]

/-- A Python `NamedTuple` constructor call with the given keyword names
succeeds exactly when every keyword is a declared field and every declared
field receives a value (none of the named tuples in `data_structures.py`
declare defaults); otherwise the call raises `TypeError`. -/
def namedtupleCallOk (fields kwargs : List String) : Bool :=
  kwargs.all (fun k => fields.contains k) && fields.all (fun f => kwargs.contains f)

/-- `data_structures.DownloadDetails`. `datetime.datetime` values are only
carried around, never computed with, so `reference_date` is modelled by an
opaque integer code. -/
structure DownloadDetails where
  file_name : String
  download_url : String
  file_path : PyPath
  source_id : ℤ
  reference_date : ℤ
  size : ℤ
  md5sum : String
  is_partitioned : Bool
deriving DecidableEq

/-- `data_structures.PartitionDownloadDetails`. -/
structure PartitionDownloadDetails where
  parent_file_name : String
  download_url : String
  file_path : PyPath
deriving DecidableEq

/-- An entry of the mixed whole-files-and-partitions download manifest; the
source discriminates the two cases with `type(x) is PartitionDownloadDetails`
runtime checks. -/
inductive DownloadManifestItem where
  | whole (d : DownloadDetails)
  | part (p : PartitionDownloadDetails)
deriving DecidableEq

/-- Modelled from the spec: `ConcurrentDownloadManifest` is imported by
`post_download_processing.py` from `data_structures.py`, but the snapshot of
`data_structures.py` under `src/` does not define it.  The spec's Manifest
is the pair of co-dependent lists `wholeFiles` (reference data) and
`workItems` (the mixed unit-of-work list), which matches how
`post_download_processing.pre_concatenation_processing` builds it. -/
structure ConcurrentDownloadManifest where
  whole_files_reference : List DownloadDetails
  concurrent_download_manifest : List DownloadManifestItem
deriving DecidableEq

/-- The filesystem seen by the reconciliation step: the files present on
disk, each with its byte content. -/
abbrev PyFS : Type := List (PyPath × List ℕ)

/-- The listing of one directory: the on-disk paths whose parent directory
is `dir`, in directory order. -/
def dirListing (fs : PyFS) (dir : List String) : List PyPath :=
  (fs.map Prod.fst).filter (fun p => p.parent = dir)

/-- The byte content of an on-disk file. -/
def readFile (fs : PyFS) (p : PyPath) : List ℕ :=
  match fs.find? (fun e => e.1 = p) with
  | some e => e.2
  | none => []

/-! ### `pre_download_processing.py` -/

/-- `convert_mib_to_bytes`: `round(size_in_mib * (1024**2))`. -/
def convert_mib_to_bytes (size_in_mib : ℚ) : ℤ :=
  pyRound (size_in_mib * (1024 ^ 2 : ℚ))

/-- `calculate_multi_part_threshold`:
`round((convert_mib_to_bytes(p) * 2) + (0.8 * convert_mib_to_bytes(p)))`. -/
def calculate_multi_part_threshold (partition_size_in_mib : ℚ) : ℤ :=
  pyRound (((convert_mib_to_bytes partition_size_in_mib : ℚ) * 2)
    + (0.8 : ℚ) * (convert_mib_to_bytes partition_size_in_mib : ℚ))

/-- `check_if_partitioned`: `True` when the file size reaches the
multi-part threshold. -/
def check_if_partitioned (file_size_in_bytes : ℤ) (partition_size_in_mib : ℚ) : Bool :=
  if calculate_multi_part_threshold partition_size_in_mib ≤ file_size_in_bytes then true
  else false

/-- `calculate_number_of_same_size_partitions`: Python `//`. -/
def calculate_number_of_same_size_partitions
    (file_size_in_bytes : ℤ) (partition_size_in_mib : ℚ) : ℤ :=
  file_size_in_bytes.fdiv (convert_mib_to_bytes partition_size_in_mib)

/-- `calculate_size_of_last_partition`: Python `%`. -/
def calculate_size_of_last_partition
    (file_size_in_bytes : ℤ) (partition_size_in_mib : ℚ) : ℤ :=
  file_size_in_bytes.fmod (convert_mib_to_bytes partition_size_in_mib)

/-- `calculate_list_of_partition_upper_extremities`:
`[bytes * i for i in range(1, n + 1)]`, plus the file size appended when
the last partition is not empty. -/
def calculate_list_of_partition_upper_extremities
    (file_size_in_bytes : ℤ) (partition_size_in_mib : ℚ) : List ℤ :=
  let base := (List.range' 1
      (calculate_number_of_same_size_partitions file_size_in_bytes
        partition_size_in_mib).toNat).map
    (fun (i : ℕ) => convert_mib_to_bytes partition_size_in_mib * (i : ℤ))
  if calculate_size_of_last_partition file_size_in_bytes partition_size_in_mib ≠ 0 then
    base ++ [file_size_in_bytes]
  else base

/-- `calculate_list_of_partition_lower_extremities`: `[0]` followed by
`upper + 1` for every upper extremity strictly below the file size. -/
def calculate_list_of_partition_lower_extremities
    (file_size_in_bytes : ℤ) (partition_size_in_mib : ℚ) : List ℤ :=
  0 :: ((calculate_list_of_partition_upper_extremities file_size_in_bytes
      partition_size_in_mib).filter
    (fun u => u < file_size_in_bytes)).map (fun u => u + 1)

/-- `calculate_list_of_partition_extremities`: zips lower and upper
extremities; the `{"start": .., "end": ..}` dictionary is modelled as the
pair `(start, end)`. -/
def calculate_list_of_partition_extremities
    (file_size_in_bytes : ℤ) (partition_size_in_mib : ℚ) : List (ℤ × ℤ) :=
  List.zip
    (calculate_list_of_partition_lower_extremities file_size_in_bytes partition_size_in_mib)
    (calculate_list_of_partition_upper_extremities file_size_in_bytes partition_size_in_mib)

/-- `generate_path_to_file_partition`: the partition path is built in the
parent directory from `stem.split('.')[0]`, the 1-based partition index and
`suffixes[0]`; a name without any suffix makes `suffixes[0]` raise
`IndexError` (`none`).  (`split` never returns an empty list, so the
`[0]` subscript on it cannot raise.) -/
def generate_path_to_file_partition
    (path_to_whole_file : PyPath) (partition_index : ℕ) : Option PyPath :=
  match pySuffixes path_to_whole_file.name.data with
  | [] => none
  | s0 :: _ =>
    some { parent := path_to_whole_file.parent,
           name := String.mk ((splitCh '.' (pyStem path_to_whole_file.name.data)).headD [])
             ++ "_" ++ toString (partition_index + 1) ++ String.mk s0 }

/-! ### `crawler.py` -/

/-- `clean_raw_filename`: a `WATCHLIST`-prefixed name is split on `_` and
rebuilt from tokens 0, 2 and 3 (an `IndexError`, modelled as `none`, when
fewer than four tokens exist); any other name is returned unchanged. -/
def clean_raw_filename (raw_filename : String) : Option String :=
  if strStartsWith raw_filename "WATCHLIST" then
    match (pySplit raw_filename '_')[0]?, (pySplit raw_filename '_')[2]?,
        (pySplit raw_filename '_')[3]? with
    | some c0, some c2, some c3 => some (pyJoin "_" [c0, c2, c3])
    | _, _, _ => none
  else some raw_filename

/-- `parse_source_from_name`: `file_name.split("_")[1]`, an `IndexError`
(`none`) when the name has a single token. -/
def parse_source_from_name (file_name : String) : Option String :=
  (pySplit file_name '_')[1]?

/-! ### `post_download_processing.py` -/

/-- `get_non_partitioned_files`. -/
def get_non_partitioned_files (whole_files_reference_data : List DownloadDetails) :
    List DownloadDetails :=
  whole_files_reference_data.filter (fun file => file.is_partitioned = false)

/-- `get_partitioned_files`:
`list(set(reference).difference(set(get_non_partitioned_files(reference))))`.
Python sets collapse value-equal tuples and lose ordering; the set
difference is modelled as a deduplicated filter, a list with the same
members. -/
def get_partitioned_files (whole_files_reference_data : List DownloadDetails) :
    List DownloadDetails :=
  (whole_files_reference_data.filter
    (fun file => ¬ file ∈ get_non_partitioned_files whole_files_reference_data)).dedup

/-- `get_partitions_download_details`: with a falsy `file_name` (Python
`if not file_name:` — `None` or the empty string) every partition entry of
the manifest is returned; otherwise only the partition entries whose
`parent_file_name` equals `file_name`. -/
def get_partitions_download_details
    (concurrent_download_manifest : List DownloadManifestItem)
    (file_name : Option String) : List PartitionDownloadDetails :=
  if file_name = none ∨ file_name = some "" then
    concurrent_download_manifest.filterMap
      (fun item => match item with
        | .part p => some p
        | .whole _ => none)
  else
    concurrent_download_manifest.filterMap
      (fun item => match item with
        | .part p => if some p.parent_file_name = file_name then some p else none
        | .whole _ => none)

/-- Sort key of `get_downloaded_partitions`:
`int(x.stem.split("_")[3])`; `none` when the subscript raises `IndexError`
or `int` raises `ValueError`. -/
def partitionSortKey (p : PyPath) : Option ℤ :=
  ((pySplit (String.mk (pyStem p.name.data)) '_')[3]?).bind pyInt

/-- Sort key with the default that is only ever used after every key has
been checked to parse. -/
def partitionSortKeyD (p : PyPath) : ℤ :=
  (partitionSortKey p).getD 0

/-- Evaluates `f` on every element from the left, propagating the first
failure (a Python loop or comprehension raises at the first element whose
evaluation raises). -/
def optionMapM {α β : Type} (f : α → Option β) : List α → Option (List β)
  | [] => some []
  | a :: l =>
    match f a with
    | none => none
    | some b =>
      match optionMapM f l with
      | none => none
      | some bs => some (b :: bs)

/-- `get_downloaded_partitions`: globs `*.txt` in the folder and sorts the
result by the numeric fourth underscore token of the stem; computing a sort
key raises (`none`) when that token is missing or not a number.  Python's
`list.sort` is stable, which `List.insertionSort` with a `≤` key relation
reproduces. -/
def get_downloaded_partitions (folder_listing : List PyPath) : Option (List PyPath) :=
  let downloaded_partitions := folder_listing.filter (fun p => strEndsWith p.name ".txt")
  if downloaded_partitions.length ≠ 0 then
    match optionMapM partitionSortKey downloaded_partitions with
    | none => none
    | some _ => some (downloaded_partitions.insertionSort
        (fun a b => partitionSortKeyD a ≤ partitionSortKeyD b))
  else some downloaded_partitions

/-- `get_file_specific_missing_partitions`: the expected partitions of the
file, minus those present in the listing of the file's directory. -/
def get_file_specific_missing_partitions
    (file_specific_download_details : DownloadDetails)
    (concurrent_download_manifest : List DownloadManifestItem)
    (fs : PyFS) : Option (List PartitionDownloadDetails) :=
  (get_downloaded_partitions
      (dirListing fs file_specific_download_details.file_path.parent)).map
    (fun downloaded =>
      (get_partitions_download_details concurrent_download_manifest
          (some file_specific_download_details.file_name)).filter
        (fun partition => ¬ partition.file_path ∈ downloaded))

/-- `get_all_missing_partitions`: chains the per-file missing-partition
lists of all partitioned files, keeping only the non-empty ones. -/
def get_all_missing_partitions
    (whole_files_reference_data : List DownloadDetails)
    (concurrent_download_manifest : List DownloadManifestItem)
    (fs : PyFS) : Option (List PartitionDownloadDetails) :=
  (optionMapM
      (fun file => get_file_specific_missing_partitions file
        concurrent_download_manifest fs)
      (get_partitioned_files whole_files_reference_data)).map
    (fun lists => (lists.filter (fun l => l.length > 0)).flatten)

/-- `get_files_with_missing_partitions`: the reference files whose name is
the parent of some missing partition. -/
def get_files_with_missing_partitions
    (whole_files_reference_data : List DownloadDetails)
    (missing_partitions : List PartitionDownloadDetails) : List DownloadDetails :=
  whole_files_reference_data.filter
    (fun file => (missing_partitions.map
      (fun partition => partition.parent_file_name)).contains file.file_name)

/-- `concatenate_partitions`: reads the partitions of the output file's
directory in the order produced by `get_downloaded_partitions` and appends
their bytes into the output file; the value is the byte content written. -/
def concatenate_partitions (fs : PyFS) (path_to_output_file : PyPath) :
    Option (List ℕ) :=
  (get_downloaded_partitions (dirListing fs path_to_output_file.parent)).map
    (fun available_partition_files =>
      (available_partition_files.map (fun p => readFile fs p)).flatten)

/-- `update_failed_download_manifest`: the body of the source function is
`pass`, so it returns `None` and produces no updated manifest. -/
def update_failed_download_manifest
    (failed_download_manifest : ConcurrentDownloadManifest)
    (failed_files : List DownloadDetails)
    (failed_partitions : List PartitionDownloadDetails) :
    Option ConcurrentDownloadManifest :=
  none

/-! ### Helper lemmas -/

theorem pyRound_intCast (n : ℤ) : pyRound (n : ℚ) = n := by
  simp [pyRound]

theorem convert_mib_to_bytes_five : convert_mib_to_bytes 5 = 5242880 := by
  have h : (5 * (1024 ^ 2 : ℚ)) = ((5242880 : ℤ) : ℚ) := by norm_num
  rw [convert_mib_to_bytes, h, pyRound_intCast]

theorem calculate_multi_part_threshold_five :
    calculate_multi_part_threshold 5 = 14680064 := by
  rw [calculate_multi_part_threshold, convert_mib_to_bytes_five]
  have h : (((5242880 : ℤ) : ℚ) * 2 + (0.8 : ℚ) * ((5242880 : ℤ) : ℚ))
      = ((14680064 : ℤ) : ℚ) := by norm_num
  rw [h, pyRound_intCast]

theorem pyRound_ge_floor (q : ℚ) : ⌊q⌋ ≤ pyRound q := by
  unfold pyRound
  split_ifs <;> omega

/-! ### Claim C4 -/

/-- C4: `calculate_multi_part_threshold(P)` equals
`round(2 * convert_mib_to_bytes(P) + 0.8 * convert_mib_to_bytes(P))` for
every partition size `P`, and `check_if_partitioned(S, P)` is true exactly
when `S` is at least that threshold; concretely the threshold at 5.0 MiB is
14680064, a 12897485-byte file is not partitioned and a 23383245-byte file
is. -/
theorem C4_multi_part_threshold_and_check :
    (∀ P : ℚ, calculate_multi_part_threshold P =
      pyRound (2 * (convert_mib_to_bytes P : ℚ)
        + (0.8 : ℚ) * (convert_mib_to_bytes P : ℚ)))
    ∧ (∀ (S : ℤ) (P : ℚ),
        check_if_partitioned S P = true ↔ calculate_multi_part_threshold P ≤ S)
    ∧ calculate_multi_part_threshold 5 = 14680064
    ∧ check_if_partitioned 12897485 5 = false
    ∧ check_if_partitioned 23383245 5 = true := by
  refine ⟨fun P => ?_, fun S P => ?_, calculate_multi_part_threshold_five, ?_, ?_⟩
  · rw [calculate_multi_part_threshold]
    ring_nf
  · rw [check_if_partitioned]
    split_ifs with h <;> simp [h]
  · rw [check_if_partitioned, calculate_multi_part_threshold_five]
    norm_num
  · rw [check_if_partitioned, calculate_multi_part_threshold_five]
    norm_num

/-! ### Claim C9 -/

/-- C9: the post-concatenation retry hand-off is an unimplemented stub:
`update_failed_download_manifest` has the body `pass`, so for every failed
whole file and every failed partition it returns `None` and re-queues
nothing, against the documented retry behaviour. -/
theorem C9_update_failed_download_manifest_is_a_stub :
    ∀ (m : ConcurrentDownloadManifest) (failed_files : List DownloadDetails)
      (failed_partitions : List PartitionDownloadDetails),
      update_failed_download_manifest m failed_files failed_partitions = none :=
  fun _ _ _ => rfl

/-! ### Claim C3 -/

/-- C3: the `DownloadDetails(...)` call in `process_raw_download_info` (the
function through which `prepare_download_manifests` builds every manifest
entry) omits the mandatory `source_id` and `reference_date` fields of
`data_structures.DownloadDetails`, so the constructor call raises
`TypeError` for every discovered file and no manifest pair is ever
returned for a non-empty discovery list. -/
theorem C3_process_raw_download_info_kwargs_mismatch :
    namedtupleCallOk downloadDetailsFields processRawDownloadInfoKeywords = false
    ∧ "source_id" ∈ downloadDetailsFields
    ∧ "source_id" ∉ processRawDownloadInfoKeywords
    ∧ "reference_date" ∈ downloadDetailsFields
    ∧ "reference_date" ∉ processRawDownloadInfoKeywords := by
  refine ⟨by decide, by decide, by decide, by decide, by decide⟩

/-! ### Claim C6 -/

/-- C6: the `DiscoveredFileInfo(...)` call in
`crawler.create_discovered_file_object` passes the keyword `source`, which
is not a field of `data_structures.DiscoveredFileInfo`, and omits the
mandatory `source_id` and `reference_date` fields, so the call raises
`TypeError` for every leaf node instead of producing the record of the
data model. -/
theorem C6_create_discovered_file_object_kwargs_mismatch :
    namedtupleCallOk discoveredFileInfoFields createDiscoveredFileObjectKeywords = false
    ∧ "source" ∈ createDiscoveredFileObjectKeywords
    ∧ "source" ∉ discoveredFileInfoFields
    ∧ "source_id" ∈ discoveredFileInfoFields
    ∧ "source_id" ∉ createDiscoveredFileObjectKeywords
    ∧ "reference_date" ∈ discoveredFileInfoFields
    ∧ "reference_date" ∉ createDiscoveredFileObjectKeywords := by
  refine ⟨by decide, by decide, by decide, by decide, by decide, by decide, by decide⟩

/-! ### Claim C7 -/

/-- C7 (counterexample): `WATCHLIST_a_b_c_d` does not match the
`TYPE_account_SOURCE_DATE.ext` convention (it has five underscore-delimited
tokens, not four), yet `clean_raw_filename` does not return it unchanged:
it mangles it to `WATCHLIST_b_c`. -/
theorem C7_counterexample_five_token_watchlist_name :
    strStartsWith "WATCHLIST_a_b_c_d" "WATCHLIST" = true
    ∧ (pySplit "WATCHLIST_a_b_c_d" '_').length = 5
    ∧ clean_raw_filename "WATCHLIST_a_b_c_d" = some "WATCHLIST_b_c"
    ∧ "WATCHLIST_b_c" ≠ "WATCHLIST_a_b_c_d" := by
  refine ⟨by decide, by decide, by decide, by decide⟩

/-- C7 (amended): `clean_raw_filename` removes exactly the second
underscore-delimited token of every name that starts with the `WATCHLIST`
prefix and splits into exactly four tokens, rejoining the other three in
order; it is the identity on every name that does not start with the
`WATCHLIST` prefix (but not on `WATCHLIST`-prefixed names with a different
token count); the concrete normalisation and source-id examples hold. -/
theorem C7_clean_raw_filename_amended :
    (∀ s c0 c1 c2 c3 : String, pySplit s '_' = [c0, c1, c2, c3] →
      strStartsWith s "WATCHLIST" = true →
      clean_raw_filename s = some (c0 ++ "_" ++ c2 ++ "_" ++ c3))
    ∧ (∀ s : String, strStartsWith s "WATCHLIST" = false →
        clean_raw_filename s = some s)
    ∧ clean_raw_filename "WATCHLIST_jdoe_367_20200716.txt.bz2"
        = some "WATCHLIST_367_20200716.txt.bz2"
    ∧ parse_source_from_name "WATCHLIST_367_20200716.txt.bz2" = some "367" := by
  refine ⟨fun s c0 c1 c2 c3 hsplit hw => ?_, fun s hw => ?_, by decide, by decide⟩
  · rw [clean_raw_filename, if_pos hw, hsplit]
    show some (pyJoin "_" [c0, c2, c3]) = _
    simp [pyJoin, String.append_assoc]
  · rw [clean_raw_filename, if_neg (by simp [hw])]

/-- C7 (witness): the amended theorem applied to the concrete raw name
`WATCHLIST_jdoe_367_20200716.txt.bz2` and to the non-`WATCHLIST` name
`CROSSREF_903_20200610.txt.bz2`. -/
theorem C7_clean_raw_filename_amended_witness :
    pySplit "WATCHLIST_jdoe_367_20200716.txt.bz2" '_'
      = ["WATCHLIST", "jdoe", "367", "20200716.txt.bz2"]
    ∧ strStartsWith "WATCHLIST_jdoe_367_20200716.txt.bz2" "WATCHLIST" = true
    ∧ clean_raw_filename "WATCHLIST_jdoe_367_20200716.txt.bz2"
        = some ("WATCHLIST" ++ "_" ++ "367" ++ "_" ++ "20200716.txt.bz2")
    ∧ strStartsWith "CROSSREF_903_20200610.txt.bz2" "WATCHLIST" = false
    ∧ clean_raw_filename "CROSSREF_903_20200610.txt.bz2"
        = some "CROSSREF_903_20200610.txt.bz2" :=
  ⟨by decide, by decide,
    C7_clean_raw_filename_amended.1 "WATCHLIST_jdoe_367_20200716.txt.bz2"
      "WATCHLIST" "jdoe" "367" "20200716.txt.bz2" (by decide) (by decide),
    by decide,
    C7_clean_raw_filename_amended.2.1 _ (by decide)⟩

/-! ### Claim C5 -/

/-- C5 (counterexample): for the whole-file name
`WATCHLIST_367_20200716.txt.bz2` (two suffix components) and enumeration
position 0, the partition path name is `WATCHLIST_367_20200716_1.txt` —
only the first suffix component `.txt` is kept, not the claimed full
`.txt.bz2` ending. -/
theorem C5_counterexample_second_suffix_dropped :
    generate_path_to_file_partition ⟨["d"], "WATCHLIST_367_20200716.txt.bz2"⟩ 0
      = some ⟨["d"], "WATCHLIST_367_20200716_1.txt"⟩
    ∧ generate_path_to_file_partition ⟨["d"], "WATCHLIST_367_20200716.txt.bz2"⟩ 0
      ≠ some ⟨["d"], "WATCHLIST_367_20200716_1.txt.bz2"⟩ := by
  refine ⟨by decide, by decide⟩


/-! ### Claim C1 -/

theorem two_bytes_le_threshold (P : ℚ) (hB : 0 ≤ convert_mib_to_bytes P) :
    2 * convert_mib_to_bytes P ≤ calculate_multi_part_threshold P := by
  have hq : (0 : ℚ) ≤ (convert_mib_to_bytes P : ℚ) := by exact_mod_cast hB
  have harg : ((2 * convert_mib_to_bytes P : ℤ) : ℚ)
      ≤ (convert_mib_to_bytes P : ℚ) * 2 + (0.8 : ℚ) * (convert_mib_to_bytes P : ℚ) := by
    push_cast
    nlinarith [hq]
  rw [calculate_multi_part_threshold]
  calc 2 * convert_mib_to_bytes P
      = ⌊((2 * convert_mib_to_bytes P : ℤ) : ℚ)⌋ := (Int.floor_intCast _).symm
    _ ≤ ⌊(convert_mib_to_bytes P : ℚ) * 2 + (0.8 : ℚ) * (convert_mib_to_bytes P : ℚ)⌋ :=
        Int.floor_le_floor harg
    _ ≤ pyRound ((convert_mib_to_bytes P : ℚ) * 2
          + (0.8 : ℚ) * (convert_mib_to_bytes P : ℚ)) := pyRound_ge_floor _

theorem zip_lower_upper_spec (w : List ℤ) (S : ℤ) (hw : w ≠ [])
    (hlast : w.getLast hw = S)
    (hfil : w.filter (fun u => u < S) = w.dropLast) :
    (List.zip (0 :: (w.filter (fun u => u < S)).map (fun u => u + 1)) w).length = w.length
    ∧ (List.zip (0 :: (w.filter (fun u => u < S)).map (fun u => u + 1)) w).head?.map
        Prod.fst = some 0
    ∧ (List.zip (0 :: (w.filter (fun u => u < S)).map (fun u => u + 1)) w).getLast?.map
        Prod.snd = some S
    ∧ ∀ k : ℕ, k + 1 <
        (List.zip (0 :: (w.filter (fun u => u < S)).map (fun u => u + 1)) w).length →
        ((List.zip (0 :: (w.filter (fun u => u < S)).map (fun u => u + 1)) w)[k + 1]?).map
            Prod.fst
          = ((List.zip (0 :: (w.filter (fun u => u < S)).map (fun u => u + 1)) w)[k]?).map
            (fun e => e.2 + 1) := by
  have hwlen : 0 < w.length := List.length_pos.mpr hw
  rw [hfil]
  have hlowlen : (0 :: w.dropLast.map (fun u => u + 1)).length = w.length := by
    simp [List.length_dropLast]
    omega
  have hziplen :
      (List.zip (0 :: w.dropLast.map (fun u => u + 1)) w).length = w.length := by
    rw [List.length_zip, hlowlen, min_self]
  refine ⟨hziplen, ?_, ?_, ?_⟩
  · rw [List.head?_eq_getElem?, List.getElem?_eq_getElem (by omega),
      List.getElem_zip]
    simp
  · have hWS : ∀ (h : w.length - 1 < w.length), w[w.length - 1] = S := by
      intro h
      rw [← List.getLast_eq_getElem w hw]
      exact hlast
    rw [List.getLast?_eq_getElem?, hziplen,
      List.getElem?_eq_getElem (by omega), List.getElem_zip]
    simp [hWS]
  · intro k h
    have hk1 : k + 1 < w.length := by omega
    have hkd : k < w.dropLast.length := by
      rw [List.length_dropLast]
      omega
    rw [List.getElem?_eq_getElem h, List.getElem?_eq_getElem (Nat.lt_of_succ_lt h)]
    simp only [List.getElem_zip, Option.map_some']
    congr 1
    show (0 :: w.dropLast.map (fun u => u + 1))[k + 1] = w[k] + 1
    rw [List.getElem_cons_succ]
    rw [List.getElem_map]
    rw [List.getElem_dropLast]

theorem upper_extremities_closed_form (S : ℤ) (P : ℚ) (nn : ℕ)
    (hnn : (nn : ℤ) = calculate_number_of_same_size_partitions S P) :
    calculate_list_of_partition_upper_extremities S P
      = ((List.range' 1 nn).map (fun (i : ℕ) => convert_mib_to_bytes P * (i : ℤ)))
        ++ (if calculate_size_of_last_partition S P = 0 then [] else [S]) := by
  rw [calculate_list_of_partition_upper_extremities]
  by_cases hc : calculate_size_of_last_partition S P = 0 <;>
    simp [hc, ← hnn]

theorem extremities_case_exact (B S : ℤ) (nn : ℕ) (hB : 0 < B) (hnn2 : 2 ≤ nn)
    (hBS : B * (nn : ℤ) = S) :
    (List.range' 1 nn).map (fun (i : ℕ) => B * (i : ℤ)) ≠ []
    ∧ ((List.range' 1 nn).map (fun (i : ℕ) => B * (i : ℤ))).getLast? = some S
    ∧ ((List.range' 1 nn).map (fun (i : ℕ) => B * (i : ℤ))).filter (fun u => u < S)
      = ((List.range' 1 nn).map (fun (i : ℕ) => B * (i : ℤ))).dropLast := by
  have h1 : nn = (nn - 1) + 1 := by omega
  have h2 : 1 + 1 * (nn - 1) = nn := by omega
  have hsplit : List.range' 1 nn = List.range' 1 (nn - 1) ++ [nn] := by
    conv_lhs => rw [h1]
    rw [List.range'_concat, h2]
  have hw_eq : (List.range' 1 nn).map (fun (i : ℕ) => B * (i : ℤ))
      = ((List.range' 1 (nn - 1)).map (fun (i : ℕ) => B * (i : ℤ))) ++ [B * (nn : ℤ)] := by
    rw [hsplit, List.map_append]
    simp
  refine ⟨?_, ?_, ?_⟩
  · rw [hw_eq]
    simp
  · rw [hw_eq, List.getLast?_concat, hBS]
  · rw [hw_eq, List.filter_append, List.dropLast_concat]
    have hfront : ((List.range' 1 (nn - 1)).map (fun (i : ℕ) => B * (i : ℤ))).filter
        (fun u => u < S) = (List.range' 1 (nn - 1)).map (fun (i : ℕ) => B * (i : ℤ)) := by
      rw [List.filter_eq_self]
      intro x hx
      obtain ⟨i, hi, rfl⟩ := List.mem_map.1 hx
      obtain ⟨j, hj, hij⟩ := List.mem_range'.1 hi
      have hinn : i < nn := by omega
      have hmul : B * (i : ℤ) < B * (nn : ℤ) :=
        mul_lt_mul_of_pos_left (by exact_mod_cast hinn) hB
      simp only [decide_eq_true_eq]
      omega
    have hlastfil : [B * (nn : ℤ)].filter (fun u => u < S) = [] := by
      simp [hBS]
    rw [hfront, hlastfil, List.append_nil]

theorem extremities_case_rem (B S : ℤ) (nn : ℕ) (hB : 0 < B)
    (hlt : B * (nn : ℤ) < S) :
    ((List.range' 1 nn).map (fun (i : ℕ) => B * (i : ℤ))) ++ [S] ≠ []
    ∧ (((List.range' 1 nn).map (fun (i : ℕ) => B * (i : ℤ))) ++ [S]).getLast? = some S
    ∧ (((List.range' 1 nn).map (fun (i : ℕ) => B * (i : ℤ))) ++ [S]).filter (fun u => u < S)
      = (((List.range' 1 nn).map (fun (i : ℕ) => B * (i : ℤ))) ++ [S]).dropLast := by
  refine ⟨by simp, by rw [List.getLast?_concat], ?_⟩
  rw [List.filter_append, List.dropLast_concat]
  have hfront : ((List.range' 1 nn).map (fun (i : ℕ) => B * (i : ℤ))).filter
      (fun u => u < S) = (List.range' 1 nn).map (fun (i : ℕ) => B * (i : ℤ)) := by
    rw [List.filter_eq_self]
    intro x hx
    obtain ⟨i, hi, rfl⟩ := List.mem_map.1 hx
    obtain ⟨j, hj, hij⟩ := List.mem_range'.1 hi
    have hinn : i ≤ nn := by omega
    have hmul : B * (i : ℤ) ≤ B * (nn : ℤ) :=
      mul_le_mul_of_nonneg_left (by exact_mod_cast hinn) hB.le
    simp only [decide_eq_true_eq]
    omega
  have hlastfil : [S].filter (fun u => u < S) = [] := by
    simp
  rw [hfront, hlastfil, List.append_nil]

/-- C1: for every file size `S` and partition size `P` with a positive
partition byte size and `S` at least the multi-part threshold, the list of
partition extremities is non-empty, starts at 0, ends exactly at `S`, is
contiguous (the lower bound of range `k+1` is the upper bound of range `k`
plus one, so ranges cannot overlap), and has exactly `S // bytes(P)`
entries when `S` is an exact multiple of `bytes(P)` (no zero-byte trailing
range) and exactly one more entry otherwise. -/
theorem C1_partition_extremities (S : ℤ) (P : ℚ)
    (hB : 0 < convert_mib_to_bytes P)
    (hS : calculate_multi_part_threshold P ≤ S) :
    calculate_list_of_partition_extremities S P ≠ []
    ∧ (calculate_list_of_partition_extremities S P).head?.map Prod.fst = some 0
    ∧ (calculate_list_of_partition_extremities S P).getLast?.map Prod.snd = some S
    ∧ (∀ k : ℕ, k + 1 < (calculate_list_of_partition_extremities S P).length →
        ((calculate_list_of_partition_extremities S P)[k + 1]?).map Prod.fst
          = ((calculate_list_of_partition_extremities S P)[k]?).map (fun e => e.2 + 1))
    ∧ (calculate_list_of_partition_extremities S P).length
        = (if calculate_size_of_last_partition S P = 0
            then calculate_number_of_same_size_partitions S P
            else calculate_number_of_same_size_partitions S P + 1).toNat := by
  have hSB : 2 * convert_mib_to_bytes P ≤ S :=
    le_trans (two_bytes_le_threshold P hB.le) hS
  have hS0 : 0 < S := by omega
  have hne : calculate_number_of_same_size_partitions S P = S / convert_mib_to_bytes P :=
    Int.fdiv_eq_ediv _ hB.le
  have hre : calculate_size_of_last_partition S P = S % convert_mib_to_bytes P :=
    Int.fmod_eq_emod _ hB.le
  have hr0 : 0 ≤ calculate_size_of_last_partition S P := by
    rw [hre]
    exact Int.emod_nonneg _ (ne_of_gt hB)
  have hrB : calculate_size_of_last_partition S P < convert_mib_to_bytes P := by
    rw [hre]
    exact Int.emod_lt_of_pos _ hB
  have hn2 : 2 ≤ calculate_number_of_same_size_partitions S P := by
    rw [hne, Int.le_ediv_iff_mul_le hB]
    omega
  have hdm : convert_mib_to_bytes P * calculate_number_of_same_size_partitions S P
      + calculate_size_of_last_partition S P = S := by
    rw [hne, hre]
    exact Int.ediv_add_emod S _
  have hnncast : ((calculate_number_of_same_size_partitions S P).toNat : ℤ)
      = calculate_number_of_same_size_partitions S P :=
    Int.toNat_of_nonneg (by omega)
  have hnn2 : 2 ≤ (calculate_number_of_same_size_partitions S P).toNat := by omega
  have hueq := upper_extremities_closed_form S P
    (calculate_number_of_same_size_partitions S P).toNat hnncast
  by_cases hc : calculate_size_of_last_partition S P = 0
  · have hBS : convert_mib_to_bytes P
        * (((calculate_number_of_same_size_partitions S P).toNat : ℕ) : ℤ) = S := by
      rw [hnncast]
      rw [hc, add_zero] at hdm
      exact hdm
    obtain ⟨hwne, hwlast, hwfil⟩ := extremities_case_exact (convert_mib_to_bytes P) S
      (calculate_number_of_same_size_partitions S P).toNat hB hnn2 hBS
    have hueq2 : calculate_list_of_partition_upper_extremities S P
        = (List.range' 1 (calculate_number_of_same_size_partitions S P).toNat).map
          (fun (i : ℕ) => convert_mib_to_bytes P * (i : ℤ)) := by
      rw [hueq, if_pos hc, List.append_nil]
    have hL : calculate_list_of_partition_extremities S P
        = List.zip (0 :: ((((List.range' 1
              (calculate_number_of_same_size_partitions S P).toNat).map
              (fun (i : ℕ) => convert_mib_to_bytes P * (i : ℤ))).filter
            (fun u => u < S)).map (fun u => u + 1)))
          ((List.range' 1 (calculate_number_of_same_size_partitions S P).toNat).map
            (fun (i : ℕ) => convert_mib_to_bytes P * (i : ℤ))) := by
      rw [calculate_list_of_partition_extremities,
        calculate_list_of_partition_lower_extremities, hueq2]
    have hlast' : ((List.range' 1 (calculate_number_of_same_size_partitions S P).toNat).map
        (fun (i : ℕ) => convert_mib_to_bytes P * (i : ℤ))).getLast hwne = S := by
      have hgl := List.getLast?_eq_getLast _ hwne
      rw [hgl] at hwlast
      exact Option.some.inj hwlast
    obtain ⟨hzl, hzh, hzt, hzc⟩ :=
      zip_lower_upper_spec _ S hwne hlast' hwfil
    have hwlen : ((List.range' 1 (calculate_number_of_same_size_partitions S P).toNat).map
        (fun (i : ℕ) => convert_mib_to_bytes P * (i : ℤ))).length
        = (calculate_number_of_same_size_partitions S P).toNat := by
      simp
    refine ⟨?_, ?_, ?_, ?_, ?_⟩
    · apply List.ne_nil_of_length_pos
      rw [hL, hzl, hwlen]
      omega
    · rw [hL]
      exact hzh
    · rw [hL]
      exact hzt
    · intro k h
      rw [hL] at h ⊢
      exact hzc k h
    · rw [hL, hzl, hwlen, if_pos hc]
  · have hr0' : 0 < calculate_size_of_last_partition S P := by omega
    have hlt : convert_mib_to_bytes P
        * (((calculate_number_of_same_size_partitions S P).toNat : ℕ) : ℤ) < S := by
      rw [hnncast]
      omega
    obtain ⟨hwne, hwlast, hwfil⟩ := extremities_case_rem (convert_mib_to_bytes P) S
      (calculate_number_of_same_size_partitions S P).toNat hB hlt
    have hueq2 : calculate_list_of_partition_upper_extremities S P
        = ((List.range' 1 (calculate_number_of_same_size_partitions S P).toNat).map
          (fun (i : ℕ) => convert_mib_to_bytes P * (i : ℤ))) ++ [S] := by
      rw [hueq, if_neg hc]
    have hL : calculate_list_of_partition_extremities S P
        = List.zip (0 :: (((((List.range' 1
              (calculate_number_of_same_size_partitions S P).toNat).map
              (fun (i : ℕ) => convert_mib_to_bytes P * (i : ℤ))) ++ [S]).filter
            (fun u => u < S)).map (fun u => u + 1)))
          (((List.range' 1 (calculate_number_of_same_size_partitions S P).toNat).map
            (fun (i : ℕ) => convert_mib_to_bytes P * (i : ℤ))) ++ [S]) := by
      rw [calculate_list_of_partition_extremities,
        calculate_list_of_partition_lower_extremities, hueq2]
    have hlast' : (((List.range' 1 (calculate_number_of_same_size_partitions S P).toNat).map
        (fun (i : ℕ) => convert_mib_to_bytes P * (i : ℤ))) ++ [S]).getLast hwne = S := by
      have hgl := List.getLast?_eq_getLast _ hwne
      rw [hgl] at hwlast
      exact Option.some.inj hwlast
    obtain ⟨hzl, hzh, hzt, hzc⟩ :=
      zip_lower_upper_spec _ S hwne hlast' hwfil
    have hwlen : ((((List.range' 1 (calculate_number_of_same_size_partitions S P).toNat).map
        (fun (i : ℕ) => convert_mib_to_bytes P * (i : ℤ))) ++ [S])).length
        = (calculate_number_of_same_size_partitions S P).toNat + 1 := by
      simp
    refine ⟨?_, ?_, ?_, ?_, ?_⟩
    · apply List.ne_nil_of_length_pos
      rw [hL, hzl, hwlen]
      omega
    · rw [hL]
      exact hzh
    · rw [hL]
      exact hzt
    · intro k h
      rw [hL] at h ⊢
      exact hzc k h
    · rw [hL, hzl, hwlen, if_neg hc]
      omega

/-- C1 (witness): the theorem applied at `S = 14680064` bytes and
`P = 5.0` MiB, where both hypotheses hold concretely. -/
theorem C1_partition_extremities_witness :
    0 < convert_mib_to_bytes 5
    ∧ calculate_multi_part_threshold 5 ≤ 14680064
    ∧ (calculate_list_of_partition_extremities 14680064 5 ≠ []
      ∧ (calculate_list_of_partition_extremities 14680064 5).head?.map Prod.fst = some 0
      ∧ (calculate_list_of_partition_extremities 14680064 5).getLast?.map Prod.snd
          = some 14680064
      ∧ (∀ k : ℕ, k + 1 < (calculate_list_of_partition_extremities 14680064 5).length →
          ((calculate_list_of_partition_extremities 14680064 5)[k + 1]?).map Prod.fst
            = ((calculate_list_of_partition_extremities 14680064 5)[k]?).map
              (fun e => e.2 + 1))
      ∧ (calculate_list_of_partition_extremities 14680064 5).length
          = (if calculate_size_of_last_partition 14680064 5 = 0
              then calculate_number_of_same_size_partitions 14680064 5
              else calculate_number_of_same_size_partitions 14680064 5 + 1).toNat) := by
  have h1 : 0 < convert_mib_to_bytes 5 := by
    rw [convert_mib_to_bytes_five]
    norm_num
  have h2 : calculate_multi_part_threshold 5 ≤ 14680064 := by
    rw [calculate_multi_part_threshold_five]
  exact ⟨h1, h2, C1_partition_extremities 14680064 5 h1 h2⟩

/-! ### Claim C5, amended -/

theorem splitCh_ne_nil (sep : Char) (cs : List Char) : splitCh sep cs ≠ [] := by
  induction cs with
  | nil => simp [splitCh]
  | cons c cs ih =>
    cases hsp : splitCh sep cs with
    | nil => exact absurd hsp ih
    | cons t ts =>
      simp only [splitCh, hsp]
      split <;> simp

theorem splitCh_of_not_mem (sep : Char) (cs : List Char) (h : sep ∉ cs) :
    splitCh sep cs = [cs] := by
  induction cs with
  | nil => rfl
  | cons c cs ih =>
    simp only [List.mem_cons, not_or] at h
    obtain ⟨h1, h2⟩ := h
    simp only [splitCh, ih h2]
    rw [if_neg (fun e => h1 e.symm)]

theorem splitCh_append_cons (sep : Char) (b r : List Char) (h : sep ∉ b) :
    splitCh sep (b ++ sep :: r) = b :: splitCh sep r := by
  induction b with
  | nil =>
    cases hsp : splitCh sep r with
    | nil => exact absurd hsp (splitCh_ne_nil sep r)
    | cons t ts =>
      simp only [List.nil_append, splitCh, hsp]
      simp
  | cons c b ih =>
    simp only [List.mem_cons, not_or] at h
    obtain ⟨h1, h2⟩ := h
    have hrec := ih h2
    rw [List.cons_append]
    show (match splitCh sep (b ++ sep :: r) with
      | [] => [[]]
      | t :: ts => if c = sep then [] :: t :: ts else (c :: t) :: ts)
      = (c :: b) :: splitCh sep r
    rw [hrec]
    show (if c = sep then [] :: b :: splitCh sep r else (c :: b) :: splitCh sep r)
      = (c :: b) :: splitCh sep r
    rw [if_neg (fun e => h1 e.symm)]

theorem rfindIdx_getElem? (c : Char) (cs : List Char) :
    ∀ i, rfindIdx c cs = some i → cs[i]? = some c := by
  induction cs with
  | nil =>
    intro i h
    simp [rfindIdx] at h
  | cons x xs ih =>
    intro i h
    cases hr : rfindIdx c xs with
    | some j =>
      simp only [rfindIdx, hr] at h
      cases h
      rw [List.getElem?_cons_succ]
      exact ih j hr
    | none =>
      simp only [rfindIdx, hr] at h
      by_cases hx : x = c
      · rw [if_pos hx] at h
        cases h
        simp [hx]
      · rw [if_neg hx] at h
        cases h

theorem pyStem_cases (cs : List Char) :
    pyStem cs = cs ∨ ∃ i, cs[i]? = some '.' ∧ pyStem cs = cs.take i := by
  cases hr : rfindIdx '.' cs with
  | none =>
    left
    simp [pyStem, hr]
  | some i =>
    simp only [pyStem, hr]
    split_ifs with hcond
    · exact Or.inr ⟨i, rfindIdx_getElem? '.' cs i hr, rfl⟩
    · exact Or.inl rfl

theorem dot_pos_ge (B R : List Char) (hB : '.' ∉ B) :
    ∀ i, (B ++ '.' :: R)[i]? = some '.' → B.length ≤ i := by
  intro i h
  by_contra hlt
  push_neg at hlt
  rw [List.getElem?_append_left hlt] at h
  obtain ⟨hib, hbe⟩ := List.getElem?_eq_some.1 h
  exact hB (hbe ▸ List.getElem_mem hib)

theorem stem_split_head (B R : List Char) (hB : '.' ∉ B) :
    (splitCh '.' (pyStem (B ++ '.' :: R))).headD [] = B := by
  rcases pyStem_cases (B ++ '.' :: R) with hst | ⟨i, hdot, hst⟩
  · rw [hst, splitCh_append_cons '.' B R hB]
    rfl
  · have hge : B.length ≤ i := dot_pos_ge B R hB i hdot
    rw [hst, List.take_append_eq_append_take, List.take_of_length_le hge]
    rcases Nat.eq_zero_or_pos (i - B.length) with h0 | hpos
    · rw [h0, List.take_zero, List.append_nil, splitCh_of_not_mem '.' B hB]
      rfl
    · obtain ⟨m, hm⟩ : ∃ m, i - B.length = m + 1 :=
        ⟨i - B.length - 1, (Nat.succ_pred_eq_of_pos hpos).symm⟩
      rw [hm, List.take_succ_cons, splitCh_append_cons '.' B _ hB]
      rfl

theorem pySuffixes_two (B T1 T2 : List Char) (hBne : B ≠ []) (hB : '.' ∉ B)
    (hT1 : '.' ∉ T1) (hT2ne : T2 ≠ []) (hT2 : '.' ∉ T2) :
    pySuffixes (B ++ '.' :: (T1 ++ '.' :: T2)) = ['.' :: T1, '.' :: T2] := by
  rw [pySuffixes]
  have hshape : B ++ '.' :: (T1 ++ '.' :: T2) = (B ++ '.' :: T1 ++ ['.']) ++ T2 := by
    simp
  have hlast : (B ++ '.' :: (T1 ++ '.' :: T2)).getLast? ≠ some '.' := by
    rw [hshape, List.getLast?_append, List.getLast?_eq_getLast T2 hT2ne]
    intro h
    simp only [Option.or_some] at h
    exact hT2 (Option.some.inj h ▸ List.getLast_mem hT2ne)
  rw [if_neg hlast]
  obtain ⟨b0, B', rfl⟩ : ∃ b0 B', B = b0 :: B' := by
    cases B with
    | nil => exact absurd rfl hBne
    | cons x xs => exact ⟨x, xs, rfl⟩
  have hb0 : ¬ (b0 = '.') := fun e => hB (List.mem_cons.mpr (Or.inl e.symm))
  rw [List.cons_append, List.dropWhile_cons, if_neg (by simp [hb0]), ← List.cons_append,
    splitCh_append_cons '.' _ _ hB, splitCh_append_cons '.' T1 T2 hT1,
    splitCh_of_not_mem '.' T2 hT2]
  rfl

/-- C5 (amended): for a whole-file path whose name is `b ++ "." ++ t1 ++
"." ++ t2` (two suffix components, with a dot-free non-empty base and
components) and a 0-based enumeration position `k`,
`generate_path_to_file_partition` returns the path in the same directory
whose name is the stem up to the first dot, then `_<k+1>`, then only the
FIRST suffix component `"." ++ t1`; the second component `t2` is dropped. -/
theorem C5_partition_path_amended (d : List String) (b t1 t2 : String) (k : ℕ)
    (hbne : b ≠ "") (hb : '.' ∉ b.data)
    (ht1ne : t1 ≠ "") (ht1 : '.' ∉ t1.data)
    (ht2ne : t2 ≠ "") (ht2 : '.' ∉ t2.data) :
    generate_path_to_file_partition ⟨d, b ++ "." ++ t1 ++ "." ++ t2⟩ k
      = some ⟨d, b ++ "_" ++ toString (k + 1) ++ "." ++ t1⟩ := by
  have hbd : b.data ≠ [] := fun hnil => hbne (String.ext hnil)
  have ht2d : t2.data ≠ [] := fun hnil => ht2ne (String.ext hnil)
  have hdot : ("." : String).data = ['.'] := rfl
  have hdata : (b ++ "." ++ t1 ++ "." ++ t2).data
      = b.data ++ '.' :: (t1.data ++ '.' :: t2.data) := by
    simp [String.data_append, hdot]
  have hsuf := pySuffixes_two b.data t1.data t2.data hbd hb ht1 ht2d ht2
  have hhead := stem_split_head b.data (t1.data ++ '.' :: t2.data) hb
  simp only [generate_path_to_file_partition, hdata, hsuf]
  refine congrArg some (congrArg (PyPath.mk d) (String.ext ?_))
  simp only [hhead, String.data_append]
  simp [hdot]

/-- C5 (witness): the amended theorem applied to the concrete whole-file
path `d/WATCHLIST_367_20200716.txt.bz2` at enumeration position 0. -/
theorem C5_partition_path_amended_witness :
    ("WATCHLIST_367_20200716" : String) ≠ ""
    ∧ '.' ∉ ("WATCHLIST_367_20200716" : String).data
    ∧ ("txt" : String) ≠ "" ∧ '.' ∉ ("txt" : String).data
    ∧ ("bz2" : String) ≠ "" ∧ '.' ∉ ("bz2" : String).data
    ∧ generate_path_to_file_partition
        ⟨["d"], "WATCHLIST_367_20200716" ++ "." ++ "txt" ++ "." ++ "bz2"⟩ 0
      = some ⟨["d"], "WATCHLIST_367_20200716" ++ "_" ++ toString (0 + 1) ++ "." ++ "txt"⟩ :=
  ⟨by decide, by decide, by decide, by decide, by decide, by decide,
    C5_partition_path_amended ["d"] "WATCHLIST_367_20200716" "txt" "bz2" 0
      (by decide) (by decide) (by decide) (by decide) (by decide) (by decide)⟩

/-! ### Claims C8 and C10 -/

theorem optionMapM_eq_some_map {α β : Type} (f : α → Option β) (dflt : β)
    (l : List α) (h : ∀ a ∈ l, (f a).isSome = true) :
    optionMapM f l = some (l.map (fun a => (f a).getD dflt)) := by
  induction l with
  | nil => rfl
  | cons a l ih =>
    obtain ⟨b, hb⟩ := Option.isSome_iff_exists.1 (h a (List.mem_cons_self a l))
    rw [optionMapM, hb, ih (fun x hx => h x (List.mem_cons_of_mem a hx))]
    simp [hb]

theorem optionMapM_eq_none {α β : Type} (f : α → Option β) (l : List α)
    (a : α) (ha : a ∈ l) (hnone : f a = none) : optionMapM f l = none := by
  induction l with
  | nil => cases ha
  | cons x xs ih =>
    rw [optionMapM]
    rcases List.mem_cons.1 ha with rfl | hxs
    · simp [hnone]
    · cases hfx : f x with
      | none => simp
      | some b => simp [ih hxs]

theorem get_downloaded_partitions_spec (L : List PyPath)
    (hk : ∀ p ∈ L, strEndsWith p.name ".txt" = true →
      (partitionSortKey p).isSome = true) :
    ∃ parts, get_downloaded_partitions L = some parts
      ∧ parts.Perm (L.filter (fun p => strEndsWith p.name ".txt"))
      ∧ parts.Sorted (fun a b => partitionSortKeyD a ≤ partitionSortKeyD b) := by
  have hkeys : ∀ p ∈ L.filter (fun p => strEndsWith p.name ".txt"),
      (partitionSortKey p).isSome = true := by
    intro p hp
    exact hk p (List.mem_filter.1 hp).1 (List.mem_filter.1 hp).2
  haveI htot : IsTotal PyPath (fun a b => partitionSortKeyD a ≤ partitionSortKeyD b) :=
    ⟨fun a b => le_total _ _⟩
  haveI htr : IsTrans PyPath (fun a b => partitionSortKeyD a ≤ partitionSortKeyD b) :=
    ⟨fun a b c hab hbc => le_trans hab hbc⟩
  by_cases hlen : (L.filter (fun p => strEndsWith p.name ".txt")).length = 0
  · refine ⟨[], ?_, ?_, ?_⟩
    · simp [get_downloaded_partitions, hlen, List.length_eq_zero.1 hlen]
    · rw [List.length_eq_zero.1 hlen]
    · simp
  · have hsome := optionMapM_eq_some_map partitionSortKey 0 _ hkeys
    refine ⟨(L.filter (fun p => strEndsWith p.name ".txt")).insertionSort
      (fun a b => partitionSortKeyD a ≤ partitionSortKeyD b), ?_, ?_, ?_⟩
    · simp [get_downloaded_partitions, hlen, hsome]
    · exact List.perm_insertionSort _ _
    · exact List.sorted_insertionSort _ _

/-- C8: for a directory whose `.txt` files all carry a parseable numeric
partition index (fourth underscore token of the stem),
`get_downloaded_partitions` returns exactly the `.txt` files of the
directory listing sorted in ascending order of that numeric index, and
`concatenate_partitions` appends the partition contents in exactly that
order. -/
theorem C8_partitions_sorted_by_index_and_concatenated (fs : PyFS)
    (path_to_output_file : PyPath)
    (hk : ∀ p ∈ dirListing fs path_to_output_file.parent,
      strEndsWith p.name ".txt" = true → (partitionSortKey p).isSome = true) :
    ∃ parts,
      get_downloaded_partitions (dirListing fs path_to_output_file.parent) = some parts
      ∧ parts.Perm ((dirListing fs path_to_output_file.parent).filter
          (fun p => strEndsWith p.name ".txt"))
      ∧ parts.Sorted (fun a b => partitionSortKeyD a ≤ partitionSortKeyD b)
      ∧ concatenate_partitions fs path_to_output_file
          = some ((parts.map (fun p => readFile fs p)).flatten) := by
  obtain ⟨parts, heq, hperm, hsorted⟩ :=
    get_downloaded_partitions_spec (dirListing fs path_to_output_file.parent) hk
  exact ⟨parts, heq, hperm, hsorted, by rw [concatenate_partitions, heq, Option.map_some']⟩

/-- C8 (witness): a directory holding partitions with indices 10, 9 and 1
(in that listing order); the sorted result must place index 10 after 9 and
9 after 1, and the concatenation follows that order. -/
theorem C8_partitions_sorted_by_index_and_concatenated_witness :
    (∀ p ∈ dirListing
        [(⟨["d"], "W_1_20200101_10.txt"⟩, [10]), (⟨["d"], "W_1_20200101_9.txt"⟩, [9]),
          (⟨["d"], "W_1_20200101_1.txt"⟩, [1])]
        (PyPath.mk ["d"] "W.txt.bz2").parent,
      strEndsWith p.name ".txt" = true → (partitionSortKey p).isSome = true)
    ∧ ∃ parts,
      get_downloaded_partitions (dirListing
        [(⟨["d"], "W_1_20200101_10.txt"⟩, [10]), (⟨["d"], "W_1_20200101_9.txt"⟩, [9]),
          (⟨["d"], "W_1_20200101_1.txt"⟩, [1])]
        (PyPath.mk ["d"] "W.txt.bz2").parent) = some parts
      ∧ parts.Perm ((dirListing
          [(⟨["d"], "W_1_20200101_10.txt"⟩, [10]), (⟨["d"], "W_1_20200101_9.txt"⟩, [9]),
            (⟨["d"], "W_1_20200101_1.txt"⟩, [1])]
          (PyPath.mk ["d"] "W.txt.bz2").parent).filter
          (fun p => strEndsWith p.name ".txt"))
      ∧ parts.Sorted (fun a b => partitionSortKeyD a ≤ partitionSortKeyD b)
      ∧ concatenate_partitions
          [(⟨["d"], "W_1_20200101_10.txt"⟩, [10]), (⟨["d"], "W_1_20200101_9.txt"⟩, [9]),
            (⟨["d"], "W_1_20200101_1.txt"⟩, [1])]
          (PyPath.mk ["d"] "W.txt.bz2")
          = some ((parts.map (fun p => readFile
              [(⟨["d"], "W_1_20200101_10.txt"⟩, [10]), (⟨["d"], "W_1_20200101_9.txt"⟩, [9]),
                (⟨["d"], "W_1_20200101_1.txt"⟩, [1])] p)).flatten) :=
  ⟨by decide,
    C8_partitions_sorted_by_index_and_concatenated
      [(⟨["d"], "W_1_20200101_10.txt"⟩, [10]), (⟨["d"], "W_1_20200101_9.txt"⟩, [9]),
        (⟨["d"], "W_1_20200101_1.txt"⟩, [1])]
      (PyPath.mk ["d"] "W.txt.bz2") (by decide)⟩

/-- C10: `get_downloaded_partitions` treats exactly the `.txt` names of the
listing as partitions and returns a list precisely when every such name
carries a parseable integer fourth underscore token in its stem; the
non-empty listing `[notes.txt]` makes it raise (`none`) instead, which also
aborts `concatenate_partitions` on that directory. -/
theorem C10_txt_classification_and_parse_failure :
    (∀ L : List PyPath, (get_downloaded_partitions L).isSome = true ↔
        ∀ p ∈ L, strEndsWith p.name ".txt" = true → (partitionSortKey p).isSome = true)
    ∧ get_downloaded_partitions [⟨["data"], "notes.txt"⟩] = none
    ∧ concatenate_partitions [(⟨["data"], "notes.txt"⟩, [])] ⟨["data"], "OUT.txt.bz2"⟩
        = none := by
  refine ⟨fun L => ⟨?_, ?_⟩, by decide, by decide⟩
  · intro hs p hp ht
    by_contra hbad
    have hnone : partitionSortKey p = none := Option.not_isSome_iff_eq_none.1 hbad
    have hpf : p ∈ L.filter (fun q => strEndsWith q.name ".txt") :=
      List.mem_filter.2 ⟨hp, ht⟩
    have hlen : (L.filter (fun q => strEndsWith q.name ".txt")).length ≠ 0 := by
      intro h0
      rw [List.length_eq_zero.1 h0] at hpf
      cases hpf
    have hmm := optionMapM_eq_none partitionSortKey _ p hpf hnone
    have hgd : get_downloaded_partitions L = none := by
      simp [get_downloaded_partitions, hlen, hmm]
    rw [hgd] at hs
    cases hs
  · intro hall
    obtain ⟨parts, heq, -, -⟩ := get_downloaded_partitions_spec L hall
    simp [heq]

/-! ### Claim C2 -/

theorem mem_get_partitioned_files (ref : List DownloadDetails) (x : DownloadDetails) :
    x ∈ get_partitioned_files ref ↔ x ∈ ref ∧ x.is_partitioned = true := by
  rw [get_partitioned_files, List.mem_dedup, List.mem_filter]
  constructor
  · rintro ⟨hx, hnp⟩
    simp only [decide_eq_true_eq] at hnp
    refine ⟨hx, ?_⟩
    by_contra hfalse
    have hfalse' : x.is_partitioned = false := by
      cases hxp : x.is_partitioned
      · rfl
      · exact absurd hxp hfalse
    exact hnp (List.mem_filter.2 ⟨hx, by simp [hfalse']⟩)
  · rintro ⟨hx, hp⟩
    refine ⟨hx, ?_⟩
    simp only [decide_eq_true_eq]
    intro hmem
    have h2 := (List.mem_filter.1 hmem).2
    simp only [decide_eq_true_eq] at h2
    rw [hp] at h2
    cases h2

theorem mem_get_partitions_download_details (manifest : List DownloadManifestItem)
    (fn : String) (hfn : fn ≠ "") (p : PartitionDownloadDetails) :
    p ∈ get_partitions_download_details manifest (some fn) ↔
      DownloadManifestItem.part p ∈ manifest ∧ p.parent_file_name = fn := by
  rw [get_partitions_download_details, if_neg (by simp [hfn])]
  rw [List.mem_filterMap]
  constructor
  · rintro ⟨item, hitem, hsome⟩
    cases item with
    | whole d => simp at hsome
    | part q =>
      simp only [] at hsome
      by_cases hq : some q.parent_file_name = some fn
      · rw [if_pos hq] at hsome
        have hqp : q = p := Option.some.inj hsome
        subst hqp
        exact ⟨hitem, Option.some.inj hq⟩
      · rw [if_neg hq] at hsome
        cases hsome
  · rintro ⟨hin, hpar⟩
    refine ⟨DownloadManifestItem.part p, hin, ?_⟩
    simp [hpar]

theorem flatten_filter_nonempty_mem {α : Type} (L : List (List α)) (p : α) :
    p ∈ (L.filter (fun l => l.length > 0)).flatten ↔ ∃ l ∈ L, p ∈ l := by
  rw [List.mem_flatten]
  constructor
  · rintro ⟨l, hl, hp⟩
    exact ⟨l, (List.mem_filter.1 hl).1, hp⟩
  · rintro ⟨l, hl, hp⟩
    refine ⟨l, List.mem_filter.2 ⟨hl, ?_⟩, hp⟩
    simp only [gt_iff_lt, decide_eq_true_eq, List.length_pos]
    exact List.ne_nil_of_mem hp

/-- C2 (amended): when every reference file has a non-empty name and the
listing of every reference file's directory parses,
`get_all_missing_partitions` returns exactly the expected partitions of
partitioned files whose path is absent from the directory listing the
reconciliation step sees, and `get_files_with_missing_partitions` returns
exactly the reference files owning at least one missing partition. -/
theorem C2_missing_partitions_amended (ref : List DownloadDetails)
    (manifest : List DownloadManifestItem) (fs : PyFS)
    (hname : ∀ f ∈ ref, f.file_name ≠ "")
    (hdir : ∀ f ∈ ref,
      (get_downloaded_partitions (dirListing fs f.file_path.parent)).isSome = true) :
    ∃ missing, get_all_missing_partitions ref manifest fs = some missing
      ∧ (∀ p, p ∈ missing ↔ ∃ f ∈ ref, f.is_partitioned = true
          ∧ DownloadManifestItem.part p ∈ manifest
          ∧ p.parent_file_name = f.file_name
          ∧ p.file_path ∉
              (get_downloaded_partitions (dirListing fs f.file_path.parent)).getD [])
      ∧ (∀ f, f ∈ get_files_with_missing_partitions ref missing ↔
          f ∈ ref ∧ ∃ p ∈ missing, p.parent_file_name = f.file_name) := by
  have hFsome : ∀ f ∈ get_partitioned_files ref,
      (get_file_specific_missing_partitions f manifest fs).isSome = true := by
    intro f hf
    have hfr : f ∈ ref := ((mem_get_partitioned_files ref f).1 hf).1
    obtain ⟨dl, hdl⟩ := Option.isSome_iff_exists.1 (hdir f hfr)
    rw [get_file_specific_missing_partitions, hdl, Option.map_some']
    rfl
  have hmm := optionMapM_eq_some_map
    (fun file => get_file_specific_missing_partitions file manifest fs) [] _ hFsome
  refine ⟨((((get_partitioned_files ref).map
      (fun a => (get_file_specific_missing_partitions a manifest fs).getD []))).filter
      (fun l => l.length > 0)).flatten, ?_, ?_, ?_⟩
  · rw [get_all_missing_partitions, hmm, Option.map_some']
  · intro p
    rw [flatten_filter_nonempty_mem]
    constructor
    · rintro ⟨l, hl, hp⟩
      obtain ⟨f, hf, rfl⟩ := List.mem_map.1 hl
      obtain ⟨hfr, hfp⟩ := (mem_get_partitioned_files ref f).1 hf
      obtain ⟨dl, hdl⟩ := Option.isSome_iff_exists.1 (hdir f hfr)
      have hFf : get_file_specific_missing_partitions f manifest fs
          = some ((get_partitions_download_details manifest (some f.file_name)).filter
            (fun q => ¬ q.file_path ∈ dl)) := by
        rw [get_file_specific_missing_partitions, hdl, Option.map_some']
      rw [hFf, Option.getD_some] at hp
      obtain ⟨hpe, hppath⟩ := List.mem_filter.1 hp
      obtain ⟨hin, hpar⟩ := (mem_get_partitions_download_details manifest f.file_name
        (hname f hfr) p).1 hpe
      refine ⟨f, hfr, hfp, hin, hpar, ?_⟩
      rw [hdl, Option.getD_some]
      simpa using hppath
    · rintro ⟨f, hfr, hfp, hin, hpar, hpath⟩
      obtain ⟨dl, hdl⟩ := Option.isSome_iff_exists.1 (hdir f hfr)
      refine ⟨(get_file_specific_missing_partitions f manifest fs).getD [],
        List.mem_map.2 ⟨f, (mem_get_partitioned_files ref f).2 ⟨hfr, hfp⟩, rfl⟩, ?_⟩
      rw [get_file_specific_missing_partitions, hdl, Option.map_some', Option.getD_some]
      refine List.mem_filter.2 ⟨?_, ?_⟩
      · exact (mem_get_partitions_download_details manifest f.file_name
          (hname f hfr) p).2 ⟨hin, hpar⟩
      · rw [hdl, Option.getD_some] at hpath
        simpa using hpath
  · intro f
    rw [get_files_with_missing_partitions, List.mem_filter]
    constructor
    · rintro ⟨hfr, hcont⟩
      refine ⟨hfr, ?_⟩
      obtain ⟨a, ha, hba⟩ := List.contains_iff_exists_mem_beq.1 hcont
      obtain ⟨q, hq, rfl⟩ := List.mem_map.1 ha
      exact ⟨q, hq, (beq_iff_eq.1 hba).symm⟩
    · rintro ⟨hfr, q, hq, hpar⟩
      refine ⟨hfr, ?_⟩
      exact List.contains_iff_exists_mem_beq.2
        ⟨f.file_name, List.mem_map.2 ⟨q, hq, hpar⟩, by simp⟩

/-- Fixture for the C2 counterexample: a partitioned reference file whose
name is the empty string. -/
def c2RefFileEmptyName : DownloadDetails :=
  { file_name := "", download_url := "u", file_path := ⟨["d"], "F.txt.bz2"⟩,
    source_id := 0, reference_date := 0, size := 0, md5sum := "m",
    is_partitioned := true }

/-- Fixture for the C2 counterexample: a partition parented by a file named
`X`, which no reference file carries. -/
def c2StrayPartition : PartitionDownloadDetails :=
  { parent_file_name := "X", download_url := "u", file_path := ⟨["e"], "X_1_1_1.txt"⟩ }

/-- C2 (counterexample): a reference file whose `file_name` is the empty
string is falsy in Python's `if not file_name:`, so every partition of the
manifest counts as "expected" for it: with an empty disk,
`get_all_missing_partitions` reports the partition parented by `"X"` as
missing even though no reference file is named `"X"` — a false positive
against the claim. -/
theorem C2_counterexample_empty_file_name :
    get_all_missing_partitions [c2RefFileEmptyName]
      [DownloadManifestItem.part c2StrayPartition] []
      = some [c2StrayPartition]
    ∧ ¬ ∃ f ∈ [c2RefFileEmptyName], f.file_name = c2StrayPartition.parent_file_name := by
  refine ⟨by decide, by decide⟩

/-- Fixture for the C2 witness: a partitioned reference file named `G`. -/
def c2RefFileG : DownloadDetails :=
  { file_name := "G", download_url := "u", file_path := ⟨["d"], "G.txt.bz2"⟩,
    source_id := 0, reference_date := 0, size := 0, md5sum := "m",
    is_partitioned := true }

/-- Fixture for the C2 witness: the first expected partition of `G` (present
on disk). -/
def c2PartitionG1 : PartitionDownloadDetails :=
  { parent_file_name := "G", download_url := "u1", file_path := ⟨["d"], "G_1_1_1.txt"⟩ }

/-- Fixture for the C2 witness: the second expected partition of `G` (absent
from disk). -/
def c2PartitionG2 : PartitionDownloadDetails :=
  { parent_file_name := "G", download_url := "u2", file_path := ⟨["d"], "G_1_1_2.txt"⟩ }

/-- Fixture for the C2 witness: the simulated disk, holding only the first
partition of `G`. -/
def c2DiskG : PyFS := [(⟨["d"], "G_1_1_1.txt"⟩, [7])]

/-- C2 (witness): the amended theorem applied to one partitioned file `G`
with two expected partitions, of which only the first is on disk. -/
theorem C2_missing_partitions_amended_witness :
    (∀ f ∈ [c2RefFileG], f.file_name ≠ "")
    ∧ (∀ f ∈ [c2RefFileG],
        (get_downloaded_partitions (dirListing c2DiskG f.file_path.parent)).isSome = true)
    ∧ ∃ missing, get_all_missing_partitions [c2RefFileG]
        [DownloadManifestItem.part c2PartitionG1, DownloadManifestItem.part c2PartitionG2]
        c2DiskG = some missing
      ∧ (∀ p, p ∈ missing ↔ ∃ f ∈ [c2RefFileG], f.is_partitioned = true
          ∧ DownloadManifestItem.part p ∈
              [DownloadManifestItem.part c2PartitionG1,
                DownloadManifestItem.part c2PartitionG2]
          ∧ p.parent_file_name = f.file_name
          ∧ p.file_path ∉
              (get_downloaded_partitions (dirListing c2DiskG f.file_path.parent)).getD [])
      ∧ (∀ f, f ∈ get_files_with_missing_partitions [c2RefFileG] missing ↔
          f ∈ [c2RefFileG] ∧ ∃ p ∈ missing, p.parent_file_name = f.file_name) :=
  ⟨by decide, by decide,
    C2_missing_partitions_amended [c2RefFileG]
      [DownloadManifestItem.part c2PartitionG1, DownloadManifestItem.part c2PartitionG2]
      c2DiskG (by decide) (by decide)⟩
